import Mathlib

/-!
# goboy: the CPU core of `core/cpu.go`

A shallow embedding of the arithmetic/logic helpers of the CPU core
(`aluRotateLeftCarry`, `aluInc`, `aluDec`, `addWord`), of the sixteen
instruction handlers, of the instruction table and of the single-step function
`next`.  Bytes and words are natural numbers; every place where the Go code
relies on the width of `byte` / `uint16` / `uint64` carries an explicit
`% 256`, `% 65536` or `% 2 ^ 64`.  A Go method that mutates the receiver and
returns a value becomes a function returning the value together with the new
CPU state.
-/

namespace GoBoy

/-! ## Data model -/

/-- Modelled from the spec: the four flag mask constants `zeroFlag`,
`negativeFlag`, `halfCarryFlag` and `carryFlag` used by `cpu.go` are declared
in a file that is not part of the sources.  Spec §3 only says that each flag
occupies one fixed bit position of the flags register, so the masks are taken
as a parameter of every ALU rule. -/
structure flagMasks where
  zeroFlag : Nat
  negativeFlag : Nat
  halfCarryFlag : Nat
  carryFlag : Nat

/-- A mask that selects exactly one bit of a byte. -/
def isFlagBit (m : Nat) : Prop := ∃ i, i < 8 ∧ m = 2 ^ i

/-- The masks are single bits of a byte, no two of them the same bit
(spec §3: "four named boolean flags, each occupying a fixed bit position"). -/
def flagMasks.WellFormed (k : flagMasks) : Prop :=
  isFlagBit k.zeroFlag ∧ isFlagBit k.negativeFlag ∧
  isFlagBit k.halfCarryFlag ∧ isFlagBit k.carryFlag ∧
  k.zeroFlag ≠ k.negativeFlag ∧ k.zeroFlag ≠ k.halfCarryFlag ∧
  k.zeroFlag ≠ k.carryFlag ∧ k.negativeFlag ≠ k.halfCarryFlag ∧
  k.negativeFlag ≠ k.carryFlag ∧ k.halfCarryFlag ≠ k.carryFlag

/-- The Game Boy layout of the flags register (Z = bit 7, N = bit 6, H = bit 5,
C = bit 4), used as the concrete instance of the masks in worked examples. -/
def gbMasks : flagMasks :=
  { zeroFlag := 0x80, negativeFlag := 0x40, halfCarryFlag := 0x20, carryFlag := 0x10 }

/-- Modelled from the spec: the `registers` type is declared outside `cpu.go`.
Spec §3: eight 8-bit fields (A, B, C, D, E, H, L and the flags register F) and
two 16-bit fields (stack pointer and program counter). -/
structure registers where
  A : Nat
  B : Nat
  C : Nat
  D : Nat
  E : Nat
  H : Nat
  L : Nat
  F : Nat
  sp : Nat
  pc : Nat

/-- The `cpu` struct of `cpu.go`: the register file, the tick counter and the
memory bus.  Modelled from the spec: the `mmu` type is declared outside
`cpu.go`; spec §6 describes it as a byte-addressable memory, here a function
from addresses to bytes.  The graphics and sound units are never touched by the
code embedded here and are left out. -/
structure cpu where
  registers : registers
  ticks : Nat
  mmu : Nat → Nat

/-- The assignment `cpu.registers.F = f`. -/
def cpu.setF (s : cpu) (f : Nat) : cpu :=
  { s with registers := { s.registers with F := f } }

/-- The assignment `cpu.registers.A = a`. -/
def cpu.setA (s : cpu) (a : Nat) : cpu :=
  { s with registers := { s.registers with A := a } }

/-- A flag is set in `F` when `F & mask == mask`, the test `cpu.go` itself uses
(line 61). -/
abbrev flagSet (F mask : Nat) : Prop := F &&& mask = mask

/-! ## ALU flag rules (`cpu.go`, lines 58-128) -/

/-- `func (cpu *cpu) aluRotateLeftCarry(value byte) byte`. -/
def aluRotateLeftCarry (k : flagMasks) (s : cpu) (value : Nat) : Nat × cpu :=
  let carry := (value &&& 0x80) >>> 7
  let value1 := (value <<< 1) % 256
  let value2 :=
    if s.registers.F &&& k.carryFlag = k.carryFlag then (value1 + 1) % 256 else value1
  let s1 :=
    if carry = 1 then s.setF (s.registers.F ||| k.carryFlag)
    else s.setF (s.registers.F ^^^ k.carryFlag)
  let s2 := s1.setF (s1.registers.F ^^^ (k.negativeFlag ||| k.zeroFlag ||| k.halfCarryFlag))
  (value2, s2)

/-- `func (cpu *cpu) aluInc(value byte) byte`. -/
def aluInc (k : flagMasks) (s : cpu) (value : Nat) : Nat × cpu :=
  let s1 :=
    if value &&& 0x0F = 0 then s.setF (s.registers.F ||| k.halfCarryFlag)
    else s.setF (s.registers.F ^^^ k.halfCarryFlag)
  let value1 := (value + 1) % 256
  let s2 :=
    if value1 = 0 then s1.setF (s1.registers.F ||| k.zeroFlag)
    else s1.setF (s1.registers.F ^^^ k.zeroFlag)
  let s3 := s2.setF (s2.registers.F ^^^ k.negativeFlag)
  (value1, s3)

/-- `func (cpu *cpu) aluDec(value byte) byte`; `value--` on a byte is
`(value + 255) % 256`. -/
def aluDec (k : flagMasks) (s : cpu) (value : Nat) : Nat × cpu :=
  let s1 :=
    if value &&& 0x0F = 0x0 then s.setF (s.registers.F ^^^ k.halfCarryFlag)
    else s.setF (s.registers.F ||| k.halfCarryFlag)
  let value1 := (value + 255) % 256
  let s2 :=
    if value1 = 0 then s1.setF (s1.registers.F ||| k.zeroFlag)
    else s1.setF (s1.registers.F ^^^ k.zeroFlag)
  let s3 := s2.setF (s2.registers.F ||| k.negativeFlag)
  (value1, s3)

/-- `func (cpu *cpu) addWord(a uint16, b uint16) uint16`.  The first sum is
computed in `uint` (at least 32 bits, so it cannot wrap for 16-bit operands),
the second in `uint16`. -/
def addWord (k : flagMasks) (s : cpu) (a b : Nat) : Nat × cpu :=
  let s1 := if a + b > 0xFFFF then s.setF (s.registers.F ||| k.carryFlag) else s
  let s2 :=
    if ((a &&& 0x0FFF) + (b &&& 0x0FFF)) % 65536 > 0x0FFF then
      s1.setF (s1.registers.F ||| k.halfCarryFlag)
    else s1
  let s3 := s2.setF (s2.registers.F ^^^ k.negativeFlag)
  ((a + b) % 65536, s3)

/-! ## Handlers -/

/-- `func rlca(cpu *cpu, _ uint16)`. -/
def rlca (k : flagMasks) (s : cpu) (_parameter : Nat) : cpu :=
  let r := aluRotateLeftCarry k s s.registers.A
  r.2.setA r.1

/-! ## Concrete states used in worked examples -/

/-- A CPU whose registers hold the given accumulator and flags, everything else
zero, over an all-zero memory. -/
def cpuWith (a f : Nat) : cpu :=
  { registers := { A := a, B := 0, C := 0, D := 0, E := 0, H := 0, L := 0, F := f,
                   sp := 0, pc := 0 },
    ticks := 0,
    mmu := fun _ => 0 }

/-! ## Collaborators declared outside `cpu.go` -/

/-- Modelled from the spec: `mmu.readByte` belongs to the memory bus, which is
declared outside `cpu.go`.  Spec §6: `readByte(address: 16-bit) -> 8-bit`. -/
def mmu.readByte (m : Nat → Nat) (address : Nat) : Nat := m address

/-- Modelled from the spec: `mmu.writeByte` belongs to the memory bus, which is
declared outside `cpu.go`.  Spec §6: `writeByte(address: 16-bit, value: 8-bit)`. -/
def mmu.writeByte (m : Nat → Nat) (address value : Nat) : Nat → Nat :=
  fun a => if a = address then value else m a

/-- Modelled from the spec: `mmu.writeWord` belongs to the memory bus, which is
declared outside `cpu.go`.  Spec §6: `writeWord(address: 16-bit, value: 16-bit)`
(little-endian): low byte at `address`, high byte at the next address. -/
def mmu.writeWord (m : Nat → Nat) (address value : Nat) : Nat → Nat :=
  mmu.writeByte (mmu.writeByte m address (value % 256)) ((address + 1) % 65536)
    ((value >>> 8) % 256)

/-- Modelled from the spec: `registers.readBC` is declared outside `cpu.go`.
Spec §3: reading a pair composes two 8-bit registers as `(high<<8)|low`. -/
def registers.readBC (r : registers) : Nat := (r.B <<< 8) ||| r.C

/-- Modelled from the spec: `registers.writeBC` is declared outside `cpu.go`.
Spec §3: writing a pair splits a 16-bit value back into the two underlying
8-bit registers. -/
def registers.writeBC (r : registers) (value : Nat) : registers :=
  { r with B := (value >>> 8) % 256, C := value % 256 }

/-- Modelled from the spec: `registers.readHL` is declared outside `cpu.go`.
Spec §3: reading a pair composes two 8-bit registers as `(high<<8)|low`. -/
def registers.readHL (r : registers) : Nat := (r.H <<< 8) ||| r.L

/-- Modelled from the spec: `registers.writeHL` is declared outside `cpu.go`.
Spec §3: writing a pair splits a 16-bit value back into the two underlying
8-bit registers. -/
def registers.writeHL (r : registers) (value : Nat) : registers :=
  { r with H := (value >>> 8) % 256, L := value % 256 }

/-- Replace the register file of a CPU. -/
def cpu.setRegisters (s : cpu) (r : GoBoy.registers) : cpu := { s with registers := r }

/-- Replace the memory of a CPU. -/
def cpu.setMmu (s : cpu) (m : Nat → Nat) : cpu := { s with mmu := m }

/-! ## Instruction handlers (`cpu.go`, lines 130-202) -/

/-- `func nop(cpu *cpu, _ uint16)`. -/
def nop (s : cpu) (_parameter : Nat) : cpu := s

/-- `func ldBcNn(cpu *cpu, parameter uint16)`. -/
def ldBcNn (s : cpu) (parameter : Nat) : cpu :=
  s.setRegisters (s.registers.writeBC parameter)

/-- `func ldBcpA(cpu *cpu, _ uint16)`. -/
def ldBcpA (s : cpu) (_parameter : Nat) : cpu :=
  s.setMmu (mmu.writeByte s.mmu s.registers.readBC s.registers.A)

/-- `func incBc(cpu *cpu, _ uint16)`; `bc++` on a `uint16`. -/
def incBc (s : cpu) (_parameter : Nat) : cpu :=
  let bc := s.registers.readBC
  let bc1 := (bc + 1) % 65536
  s.setRegisters (s.registers.writeBC bc1)

/-- `func incB(cpu *cpu, _ uint16)`. -/
def incB (k : flagMasks) (s : cpu) (_parameter : Nat) : cpu :=
  let r := aluInc k s s.registers.B
  r.2.setRegisters { r.2.registers with B := r.1 }

/-- `func decB(cpu *cpu, _ uint16)`. -/
def decB (k : flagMasks) (s : cpu) (_parameter : Nat) : cpu :=
  let r := aluDec k s s.registers.B
  r.2.setRegisters { r.2.registers with B := r.1 }

/-- `func ldBn(cpu *cpu, parameter uint16)`. -/
def ldBn (s : cpu) (parameter : Nat) : cpu :=
  s.setRegisters { s.registers with B := (parameter &&& 0x00FF) % 256 }

/-- `func ldNnpSp(cpu *cpu, value uint16)`. -/
def ldNnpSp (s : cpu) (value : Nat) : cpu :=
  s.setMmu (mmu.writeWord s.mmu value s.registers.sp)

/-- `func addHlBc(cpu *cpu, _ uint16)`. -/
def addHlBc (k : flagMasks) (s : cpu) (_parameter : Nat) : cpu :=
  let hl := s.registers.readHL
  let bc := s.registers.readBC
  let r := addWord k s hl bc
  r.2.setRegisters (r.2.registers.writeHL r.1)

/-- `func ldABcp(cpu *cpu, address uint16)`. -/
def ldABcp (s : cpu) (_address : Nat) : cpu :=
  s.setA (mmu.readByte s.mmu s.registers.readBC)

/-- `func decBc(cpu *cpu, _ uint16)`; `value--` on a `uint16`. -/
def decBc (s : cpu) (_parameter : Nat) : cpu :=
  let value := s.registers.readBC
  let value1 := (value + 65535) % 65536
  s.setRegisters (s.registers.writeBC value1)

/-- `func incC(cpu *cpu, _ uint16)`. -/
def incC (k : flagMasks) (s : cpu) (_parameter : Nat) : cpu :=
  let r := aluInc k s s.registers.C
  r.2.setRegisters { r.2.registers with C := r.1 }

/-- `func decC(cpu *cpu, _ uint16)`. -/
def decC (k : flagMasks) (s : cpu) (_parameter : Nat) : cpu :=
  let r := aluDec k s s.registers.C
  r.2.setRegisters { r.2.registers with C := r.1 }

/-- `func ldCN(cpu *cpu, value uint16)`. -/
def ldCN (s : cpu) (value : Nat) : cpu :=
  s.setRegisters { s.registers with C := (value &&& 0x00FF) % 256 }

/-- `func rrca(cpu *cpu, _ uint16)`. -/
def rrca (k : flagMasks) (s : cpu) (_parameter : Nat) : cpu :=
  let s1 :=
    if s.registers.A &&& 0x01 = 0x01 then s.setF (s.registers.F ||| k.carryFlag) else s
  s1.setA (s1.registers.A >>> 1)

/-! ## Instruction table and execution engine (`cpu.go`, lines 5-56) -/

/-- The fields of an `instruction` that the table literal of `cpu.go` fills in.
Modelled from the spec: the `instruction` type itself is declared outside
`cpu.go`; its back-reference to the owning CPU is passed to the handler as an
argument instead. -/
structure instruction where
  name : String
  ticks : Nat
  length : Nat
  handler : cpu → Nat → cpu

/-- `var instructionSetDeclaration = map[int]*instruction{...}`: a key without
an entry yields `none` (the nil pointer of the Go map). -/
def instructionSetDeclaration (k : flagMasks) (opcode : Nat) : Option instruction :=
  match opcode with
  | 0x00 => some { name := "NOP", ticks := 4, length := 1, handler := nop }
  | 0x01 => some { name := "LD BC nn", ticks := 12, length := 3, handler := ldBcNn }
  | 0x02 => some { name := "LD (BC) A", ticks := 8, length := 1, handler := ldBcpA }
  | 0x03 => some { name := "INC BC", ticks := 8, length := 1, handler := incBc }
  | 0x04 => some { name := "INC B", ticks := 4, length := 1, handler := incB k }
  | 0x05 => some { name := "DEC B", ticks := 4, length := 1, handler := decB k }
  | 0x06 => some { name := "LD B n", ticks := 8, length := 2, handler := ldBn }
  | 0x07 => some { name := "RLCA", ticks := 4, length := 1, handler := rlca k }
  | 0x08 => some { name := "LD (nn) SP", ticks := 20, length := 3, handler := ldNnpSp }
  | 0x09 => some { name := "ADD HL BC", ticks := 8, length := 1, handler := addHlBc k }
  | 0x0A => some { name := "LD A, (BC)", ticks := 8, length := 1, handler := ldABcp }
  | 0x0B => some { name := "DEC BC", ticks := 8, length := 1, handler := decBc }
  | 0x0C => some { name := "INC C", ticks := 4, length := 1, handler := incC k }
  | 0x0D => some { name := "DEC C", ticks := 4, length := 1, handler := decC k }
  | 0x0E => some { name := "LD C n", ticks := 8, length := 2, handler := ldCN }
  | 0x0F => some { name := "RRCA", ticks := 4, length := 1, handler := rrca k }
  | _ => none

/-- The assignment `cpu.registers.pc = pc`. -/
def cpu.setPc (s : cpu) (pc : Nat) : cpu :=
  { s with registers := { s.registers with pc := pc } }

/-- Modelled from the spec: `instruction.execute` is declared outside `cpu.go`.
Spec §4.4, steps 4 to 6: if the descriptor's length exceeds 1, the remaining
`length - 1` bytes starting at the already advanced program counter are the
immediate operand, decoded little-endian into a 16-bit value, and the program
counter is advanced past them; the handler is invoked with the decoded
parameter (0 if none); the tick counter (a `uint64`) is incremented by the
descriptor's declared tick cost. -/
def instruction.execute (i : instruction) (s : cpu) : cpu :=
  let pc := s.registers.pc
  let low := if i.length > 1 then mmu.readByte s.mmu pc else 0
  let high := if i.length > 2 then mmu.readByte s.mmu ((pc + 1) % 65536) else 0
  let parameter := ((high <<< 8) ||| low) % 65536
  let s1 := s.setPc ((pc + (i.length - 1)) % 65536)
  let s2 := i.handler s1 parameter
  { s2 with ticks := (s2.ticks + i.ticks) % 2 ^ 64 }

/-- How a call of `next` ends: it returns its `error` value (`none` is Go's
`nil`) in some state, or it stops in a run-time panic in some state. -/
inductive outcome where
  | returned (err : Option String) (s : cpu)
  | panicked (s : cpu)

/-- `func (cpu *cpu) next() error`.  The program counter is a `uint16`.  For an
opcode without an entry the map lookup yields a nil descriptor and
`inst.execute()` is called on it; `execute` reads the descriptor's fields, which
on a nil pointer is a run-time panic, so no value is returned. -/
def cpu.next (k : flagMasks) (s : cpu) : outcome :=
  let opcode := mmu.readByte s.mmu s.registers.pc
  let s1 := s.setPc ((s.registers.pc + 1) % 65536)
  match instructionSetDeclaration k opcode with
  | some inst => outcome.returned none (inst.execute s1)
  | none => outcome.panicked s1

/-- The state in which a call of `next` ends. -/
def outcome.state : outcome → cpu
  | outcome.returned _ s => s
  | outcome.panicked s => s

/-- The error a call of `next` hands to its caller, if it returns one. -/
def outcome.error : outcome → Option String
  | outcome.returned err _ => err
  | outcome.panicked _ => none

/-- A CPU with the given program counter, flags and tick count whose memory
holds `opcode` at every address. -/
def cpuAt (pc f ticks opcode : Nat) : cpu :=
  { registers := { A := 0, B := 0, C := 0, D := 0, E := 0, H := 0, L := 0, F := f,
                   sp := 0, pc := pc },
    ticks := ticks,
    mmu := fun _ => opcode }

/-- A CPU whose register pairs HL and BC hold the given bytes, with flags `f`,
everything else zero, over an all-zero memory. -/
def cpuPairs (h l b c f : Nat) : cpu :=
  { registers := { A := 0, B := b, C := c, D := 0, E := 0, H := h, L := l, F := f,
                   sp := 0, pc := 0 },
    ticks := 0,
    mmu := fun _ => 0 }

/-! ## Bit-level facts about single-bit masks -/

theorem flagSet_two_pow (F i : Nat) : flagSet F (2 ^ i) ↔ F.testBit i = true := by
  unfold flagSet
  rw [Nat.and_two_pow]
  have hp : 0 < 2 ^ i := Nat.two_pow_pos i
  cases h : F.testBit i
  · simp; omega
  · simp

theorem gbMasks_wellFormed : gbMasks.WellFormed := by
  refine ⟨⟨7, by decide, rfl⟩, ⟨6, by decide, rfl⟩, ⟨5, by decide, rfl⟩,
    ⟨4, by decide, rfl⟩, ?_, ?_, ?_, ?_, ?_, ?_⟩ <;> decide

/-- The bit positions behind a well-formed set of masks. -/
theorem flagMasks.WellFormed.bits {k : flagMasks} (hk : k.WellFormed) :
    ∃ z n h c, k.zeroFlag = 2 ^ z ∧ k.negativeFlag = 2 ^ n ∧
      k.halfCarryFlag = 2 ^ h ∧ k.carryFlag = 2 ^ c ∧
      z ≠ n ∧ z ≠ h ∧ z ≠ c ∧ n ≠ h ∧ n ≠ c ∧ h ≠ c := by
  obtain ⟨⟨z, -, hz⟩, ⟨n, -, hn⟩, ⟨h, -, hh⟩, ⟨c, -, hc⟩, d1, d2, d3, d4, d5, d6⟩ := hk
  refine ⟨z, n, h, c, hz, hn, hh, hc, ?_, ?_, ?_, ?_, ?_, ?_⟩ <;>
    (intro e; subst e; simp_all)

/-! ## What each ALU rule leaves in the flags register -/

theorem aluInc_halfCarry_iff (k : flagMasks) (hk : k.WellFormed) (s : cpu) (v : Nat) :
    flagSet (aluInc k s v).2.registers.F k.halfCarryFlag ↔
      (v &&& 0x0F = 0 ∨ ¬ flagSet s.registers.F k.halfCarryFlag) := by
  obtain ⟨z, n, h, c, hz, hn, hh, hc, d1, d2, d3, d4, d5, d6⟩ := hk.bits
  rw [hh, flagSet_two_pow, flagSet_two_pow]
  simp only [aluInc, cpu.setF, hz, hn, hh]
  split_ifs <;>
    simp [Nat.testBit_xor, Nat.testBit_or, Nat.testBit_two_pow, d1, d2, d3, d4, d5, d6,
      d1.symm, d2.symm, d3.symm, d4.symm, d5.symm, d6.symm, *]

theorem aluInc_zero_iff (k : flagMasks) (hk : k.WellFormed) (s : cpu) (v : Nat) :
    flagSet (aluInc k s v).2.registers.F k.zeroFlag ↔
      ((aluInc k s v).1 = 0 ∨ ¬ flagSet s.registers.F k.zeroFlag) := by
  obtain ⟨z, n, h, c, hz, hn, hh, hc, d1, d2, d3, d4, d5, d6⟩ := hk.bits
  rw [hz, flagSet_two_pow, flagSet_two_pow]
  simp only [aluInc, cpu.setF, hz, hn, hh]
  split_ifs <;>
    simp [Nat.testBit_xor, Nat.testBit_or, Nat.testBit_two_pow, d1, d2, d3, d4, d5, d6,
      d1.symm, d2.symm, d3.symm, d4.symm, d5.symm, d6.symm, *]

theorem aluInc_negative_iff (k : flagMasks) (hk : k.WellFormed) (s : cpu) (v : Nat) :
    flagSet (aluInc k s v).2.registers.F k.negativeFlag ↔
      ¬ flagSet s.registers.F k.negativeFlag := by
  obtain ⟨z, n, h, c, hz, hn, hh, hc, d1, d2, d3, d4, d5, d6⟩ := hk.bits
  rw [hn, flagSet_two_pow, flagSet_two_pow]
  simp only [aluInc, cpu.setF, hz, hn, hh]
  split_ifs <;>
    simp [Nat.testBit_xor, Nat.testBit_or, Nat.testBit_two_pow, d1, d2, d3, d4, d5, d6,
      d1.symm, d2.symm, d3.symm, d4.symm, d5.symm, d6.symm, *]

theorem aluDec_halfCarry_iff (k : flagMasks) (hk : k.WellFormed) (s : cpu) (v : Nat) :
    flagSet (aluDec k s v).2.registers.F k.halfCarryFlag ↔
      (v &&& 0x0F ≠ 0 ∨ ¬ flagSet s.registers.F k.halfCarryFlag) := by
  obtain ⟨z, n, h, c, hz, hn, hh, hc, d1, d2, d3, d4, d5, d6⟩ := hk.bits
  rw [hh, flagSet_two_pow, flagSet_two_pow]
  simp only [aluDec, cpu.setF, hz, hn, hh]
  split_ifs <;>
    simp [Nat.testBit_xor, Nat.testBit_or, Nat.testBit_two_pow, d1, d2, d3, d4, d5, d6,
      d1.symm, d2.symm, d3.symm, d4.symm, d5.symm, d6.symm, *]

theorem aluDec_zero_iff (k : flagMasks) (hk : k.WellFormed) (s : cpu) (v : Nat) :
    flagSet (aluDec k s v).2.registers.F k.zeroFlag ↔
      ((aluDec k s v).1 = 0 ∨ ¬ flagSet s.registers.F k.zeroFlag) := by
  obtain ⟨z, n, h, c, hz, hn, hh, hc, d1, d2, d3, d4, d5, d6⟩ := hk.bits
  rw [hz, flagSet_two_pow, flagSet_two_pow]
  simp only [aluDec, cpu.setF, hz, hn, hh]
  split_ifs <;>
    simp [Nat.testBit_xor, Nat.testBit_or, Nat.testBit_two_pow, d1, d2, d3, d4, d5, d6,
      d1.symm, d2.symm, d3.symm, d4.symm, d5.symm, d6.symm, *]

/-- The local `carry` of `aluRotateLeftCarry` is 1 exactly when bit 7 is set. -/
theorem bit7_eq_one_iff (v : Nat) : (v &&& 0x80) >>> 7 = 1 ↔ v.testBit 7 = true := by
  have h := Nat.and_two_pow v 7
  norm_num at h
  rw [h, Nat.shiftRight_eq_div_pow]
  cases v.testBit 7 <;> simp

theorem aluRotateLeftCarry_carry_iff (k : flagMasks) (hk : k.WellFormed) (s : cpu)
    (v : Nat) :
    flagSet (aluRotateLeftCarry k s v).2.registers.F k.carryFlag ↔
      (v.testBit 7 = true ∨ ¬ flagSet s.registers.F k.carryFlag) := by
  obtain ⟨z, n, h, c, hz, hn, hh, hc, d1, d2, d3, d4, d5, d6⟩ := hk.bits
  rw [hc, flagSet_two_pow, flagSet_two_pow, ← bit7_eq_one_iff]
  simp only [aluRotateLeftCarry, cpu.setF, hz, hn, hh, hc]
  split_ifs <;>
    simp [Nat.testBit_xor, Nat.testBit_or, Nat.testBit_two_pow, d1, d2, d3, d4, d5, d6,
      d1.symm, d2.symm, d3.symm, d4.symm, d5.symm, d6.symm, *]

theorem aluRotateLeftCarry_others_iff (k : flagMasks) (hk : k.WellFormed) (s : cpu)
    (v : Nat) :
    (flagSet (aluRotateLeftCarry k s v).2.registers.F k.zeroFlag ↔
        ¬ flagSet s.registers.F k.zeroFlag) ∧
    (flagSet (aluRotateLeftCarry k s v).2.registers.F k.negativeFlag ↔
        ¬ flagSet s.registers.F k.negativeFlag) ∧
    (flagSet (aluRotateLeftCarry k s v).2.registers.F k.halfCarryFlag ↔
        ¬ flagSet s.registers.F k.halfCarryFlag) := by
  obtain ⟨z, n, h, c, hz, hn, hh, hc, d1, d2, d3, d4, d5, d6⟩ := hk.bits
  rw [hz, hn, hh, flagSet_two_pow, flagSet_two_pow, flagSet_two_pow, flagSet_two_pow,
    flagSet_two_pow, flagSet_two_pow]
  simp only [aluRotateLeftCarry, cpu.setF, hz, hn, hh, hc]
  refine ⟨?_, ?_, ?_⟩ <;> split_ifs <;>
    simp [Nat.testBit_xor, Nat.testBit_or, Nat.testBit_two_pow, d1, d2, d3, d4, d5, d6,
      d1.symm, d2.symm, d3.symm, d4.symm, d5.symm, d6.symm, *]

theorem addWord_carry_iff (k : flagMasks) (hk : k.WellFormed) (s : cpu) (a b : Nat) :
    flagSet (addWord k s a b).2.registers.F k.carryFlag ↔
      (a + b > 0xFFFF ∨ flagSet s.registers.F k.carryFlag) := by
  obtain ⟨z, n, h, c, hz, hn, hh, hc, d1, d2, d3, d4, d5, d6⟩ := hk.bits
  rw [hc, flagSet_two_pow, flagSet_two_pow]
  simp only [addWord, cpu.setF, hz, hn, hh, hc]
  split_ifs <;>
    simp [Nat.testBit_xor, Nat.testBit_or, Nat.testBit_two_pow, d1, d2, d3, d4, d5, d6,
      d1.symm, d2.symm, d3.symm, d4.symm, d5.symm, d6.symm, *]

/-- The 12-bit sum of `addWord` never wraps in `uint16`. -/
theorem low12_sum_mod (a b : Nat) :
    ((a &&& 0x0FFF) + (b &&& 0x0FFF)) % 65536 = (a &&& 0x0FFF) + (b &&& 0x0FFF) := by
  have ha : a &&& 0x0FFF ≤ 0x0FFF := Nat.and_le_right
  have hb : b &&& 0x0FFF ≤ 0x0FFF := Nat.and_le_right
  omega

theorem addWord_halfCarry_iff (k : flagMasks) (hk : k.WellFormed) (s : cpu) (a b : Nat) :
    flagSet (addWord k s a b).2.registers.F k.halfCarryFlag ↔
      ((a &&& 0x0FFF) + (b &&& 0x0FFF) > 0x0FFF ∨
        flagSet s.registers.F k.halfCarryFlag) := by
  obtain ⟨z, n, h, c, hz, hn, hh, hc, d1, d2, d3, d4, d5, d6⟩ := hk.bits
  rw [hh, flagSet_two_pow, flagSet_two_pow]
  simp only [addWord, cpu.setF, hz, hn, hh, hc, low12_sum_mod]
  split_ifs <;>
    simp [Nat.testBit_xor, Nat.testBit_or, Nat.testBit_two_pow, d1, d2, d3, d4, d5, d6,
      d1.symm, d2.symm, d3.symm, d4.symm, d5.symm, d6.symm, *]

theorem addWord_negative_iff (k : flagMasks) (hk : k.WellFormed) (s : cpu) (a b : Nat) :
    flagSet (addWord k s a b).2.registers.F k.negativeFlag ↔
      ¬ flagSet s.registers.F k.negativeFlag := by
  obtain ⟨z, n, h, c, hz, hn, hh, hc, d1, d2, d3, d4, d5, d6⟩ := hk.bits
  rw [hn, flagSet_two_pow, flagSet_two_pow]
  simp only [addWord, cpu.setF, hz, hn, hh, hc]
  split_ifs <;>
    simp [Nat.testBit_xor, Nat.testBit_or, Nat.testBit_two_pow, d1, d2, d3, d4, d5, d6,
      d1.symm, d2.symm, d3.symm, d4.symm, d5.symm, d6.symm, *]

/-- On a byte, shifting left and then adding the carry-in is the same as
or-ing the carry-in into bit 0. -/
theorem shl_succ_mod (v : Nat) :
    ((v <<< 1) % 256 + 1) % 256 = ((v <<< 1) ||| 1) % 256 := by
  have h := Nat.mul_add_lt_is_or (by decide : 1 < 2 ^ 1) v
  rw [Nat.shiftLeft_eq, Nat.mul_comm v (2 ^ 1), ← h]
  omega

/-- No flag is set in an all-zero flags register. -/
theorem not_flagSet_zero {m : Nat} (hm : isFlagBit m) : ¬ flagSet 0 m := by
  obtain ⟨i, -, rfl⟩ := hm
  rw [flagSet_two_pow]
  simp

/-! ## Frame facts: what the ALU rules and the handlers leave alone -/

theorem aluInc_frame (k : flagMasks) (s : cpu) (v : Nat) :
    (aluInc k s v).2.registers.pc = s.registers.pc ∧ (aluInc k s v).2.ticks = s.ticks := by
  simp only [aluInc, cpu.setF]
  split_ifs <;> exact ⟨rfl, rfl⟩

theorem aluDec_frame (k : flagMasks) (s : cpu) (v : Nat) :
    (aluDec k s v).2.registers.pc = s.registers.pc ∧ (aluDec k s v).2.ticks = s.ticks := by
  simp only [aluDec, cpu.setF]
  split_ifs <;> exact ⟨rfl, rfl⟩

theorem aluRotateLeftCarry_frame (k : flagMasks) (s : cpu) (v : Nat) :
    (aluRotateLeftCarry k s v).2.registers.pc = s.registers.pc ∧
      (aluRotateLeftCarry k s v).2.ticks = s.ticks := by
  simp only [aluRotateLeftCarry, cpu.setF]
  split_ifs <;> exact ⟨rfl, rfl⟩

theorem addWord_frame (k : flagMasks) (s : cpu) (a b : Nat) :
    (addWord k s a b).2.registers.pc = s.registers.pc ∧
      (addWord k s a b).2.ticks = s.ticks := by
  simp only [addWord, cpu.setF]
  split_ifs <;> exact ⟨rfl, rfl⟩

theorem rrca_frame (k : flagMasks) (s : cpu) (p : Nat) :
    (rrca k s p).registers.pc = s.registers.pc ∧ (rrca k s p).ticks = s.ticks := by
  simp only [rrca, cpu.setF, cpu.setA]
  split_ifs <;> exact ⟨rfl, rfl⟩

theorem incB_frame (k : flagMasks) (s : cpu) (p : Nat) :
    (incB k s p).registers.pc = s.registers.pc ∧ (incB k s p).ticks = s.ticks := by
  have h := aluInc_frame k s s.registers.B
  simp only [incB, cpu.setRegisters]
  exact h

theorem decB_frame (k : flagMasks) (s : cpu) (p : Nat) :
    (decB k s p).registers.pc = s.registers.pc ∧ (decB k s p).ticks = s.ticks := by
  have h := aluDec_frame k s s.registers.B
  simp only [decB, cpu.setRegisters]
  exact h

theorem incC_frame (k : flagMasks) (s : cpu) (p : Nat) :
    (incC k s p).registers.pc = s.registers.pc ∧ (incC k s p).ticks = s.ticks := by
  have h := aluInc_frame k s s.registers.C
  simp only [incC, cpu.setRegisters]
  exact h

theorem decC_frame (k : flagMasks) (s : cpu) (p : Nat) :
    (decC k s p).registers.pc = s.registers.pc ∧ (decC k s p).ticks = s.ticks := by
  have h := aluDec_frame k s s.registers.C
  simp only [decC, cpu.setRegisters]
  exact h

theorem rlca_frame (k : flagMasks) (s : cpu) (p : Nat) :
    (rlca k s p).registers.pc = s.registers.pc ∧ (rlca k s p).ticks = s.ticks := by
  have h := aluRotateLeftCarry_frame k s s.registers.A
  simp only [rlca, cpu.setA]
  exact h

theorem addHlBc_frame (k : flagMasks) (s : cpu) (p : Nat) :
    (addHlBc k s p).registers.pc = s.registers.pc ∧ (addHlBc k s p).ticks = s.ticks := by
  have h := addWord_frame k s s.registers.readHL s.registers.readBC
  simp only [addHlBc, cpu.setRegisters, registers.writeHL]
  exact h

/-- Only the opcodes `0x00` to `0x0F` have a descriptor. -/
theorem instructionSetDeclaration_eq_none (k : flagMasks) (op : Nat) (h : 0x0F < op) :
    instructionSetDeclaration k op = none := by
  unfold instructionSetDeclaration
  split <;> first | rfl | omega

theorem instructionSetDeclaration_some_lt (k : flagMasks) (op : Nat) (i : instruction)
    (h : instructionSetDeclaration k op = some i) : op < 16 := by
  by_contra hge
  rw [instructionSetDeclaration_eq_none k op (by omega)] at h
  exact Option.noConfusion h

/-- No handler of the table touches the program counter or the tick counter,
and every declared length is 1, 2 or 3. -/
theorem instructionSetDeclaration_frame (k : flagMasks) (op : Nat) (i : instruction)
    (h : instructionSetDeclaration k op = some i) :
    (∀ (s : cpu) (p : Nat),
        (i.handler s p).registers.pc = s.registers.pc ∧ (i.handler s p).ticks = s.ticks) ∧
      i.length = (if op = 0x01 ∨ op = 0x08 then 3 else if op = 0x06 ∨ op = 0x0E then 2
        else 1) := by
  have hlt := instructionSetDeclaration_some_lt k op i h
  interval_cases op <;> simp only [instructionSetDeclaration, Option.some.injEq] at h <;>
    subst h <;> refine ⟨fun s p => ?_, by simp⟩
  · exact ⟨rfl, rfl⟩
  · exact ⟨rfl, rfl⟩
  · exact ⟨rfl, rfl⟩
  · exact ⟨rfl, rfl⟩
  · exact incB_frame k s p
  · exact decB_frame k s p
  · exact ⟨rfl, rfl⟩
  · exact rlca_frame k s p
  · exact ⟨rfl, rfl⟩
  · exact addHlBc_frame k s p
  · exact ⟨rfl, rfl⟩
  · exact ⟨rfl, rfl⟩
  · exact incC_frame k s p
  · exact decC_frame k s p
  · exact ⟨rfl, rfl⟩
  · exact rrca_frame k s p

/-- On a mapped opcode `next` returns `nil` after executing the descriptor on
the state with the program counter moved past the opcode byte. -/
theorem next_of_some (k : flagMasks) (s : cpu) (i : instruction)
    (h : instructionSetDeclaration k (mmu.readByte s.mmu s.registers.pc) = some i) :
    cpu.next k s =
      outcome.returned none (i.execute (s.setPc ((s.registers.pc + 1) % 65536))) := by
  simp only [cpu.next, h]

/-- On an unmapped opcode `next` has already moved the program counter when the
nil descriptor is used. -/
theorem next_of_none (k : flagMasks) (s : cpu)
    (h : instructionSetDeclaration k (mmu.readByte s.mmu s.registers.pc) = none) :
    cpu.next k s = outcome.panicked (s.setPc ((s.registers.pc + 1) % 65536)) := by
  simp only [cpu.next, h]

/-! ## The claims -/

/-- C1 (defect in the code). `aluInc` does not set the half-carry flag exactly
when the low nibble of the operand is 0xF.  For every admissible flag layout,
the half-carry flag is set after `aluInc(v)` iff the low nibble of `v` is 0 or
the flag was clear before the call; at `v = 0x00`, `F = 0x00` the flag ends up
set although `0x00 & 0x0F` is not `0x0F`. -/
theorem aluInc_halfCarry_defect (k : flagMasks) (hk : k.WellFormed) :
    (∀ (s : cpu) (v : Nat),
        flagSet (aluInc k s v).2.registers.F k.halfCarryFlag ↔
          (v &&& 0x0F = 0 ∨ ¬ flagSet s.registers.F k.halfCarryFlag)) ∧
    (flagSet (aluInc k (cpuWith 0 0x00) 0x00).2.registers.F k.halfCarryFlag ∧
      (0x00 : Nat) &&& 0x0F ≠ 0x0F) :=
  ⟨aluInc_halfCarry_iff k hk,
    (aluInc_halfCarry_iff k hk _ _).mpr (Or.inl (by decide)), by decide⟩

theorem aluInc_halfCarry_defect_witness :
    gbMasks.WellFormed ∧
      flagSet (aluInc gbMasks (cpuWith 0 0x00) 0x00).2.registers.F 0x20 ∧
      (0x00 : Nat) &&& 0x0F ≠ 0x0F :=
  ⟨gbMasks_wellFormed, (aluInc_halfCarry_defect gbMasks gbMasks_wellFormed).2⟩

/-- C2 (defect in the code). `aluDec` does not set the half-carry flag exactly
when the low nibble of the operand is 0x0: its two branches are the wrong way
round.  For every admissible flag layout, the half-carry flag is set after
`aluDec(v)` iff the low nibble of `v` is not 0 or the flag was clear before the
call; at `v = 0x01`, `F = 0x00` the flag ends up set although `0x01 & 0x0F` is
not 0, and at `v = 0x10` with only the half-carry flag set in `F` it ends up
clear although `0x10 & 0x0F` is 0. -/
theorem aluDec_halfCarry_defect (k : flagMasks) (hk : k.WellFormed) :
    (∀ (s : cpu) (v : Nat),
        flagSet (aluDec k s v).2.registers.F k.halfCarryFlag ↔
          (v &&& 0x0F ≠ 0 ∨ ¬ flagSet s.registers.F k.halfCarryFlag)) ∧
    (flagSet (aluDec k (cpuWith 0 0x00) 0x01).2.registers.F k.halfCarryFlag ∧
      (0x01 : Nat) &&& 0x0F ≠ 0x00) ∧
    (¬ flagSet (aluDec k (cpuWith 0 k.halfCarryFlag) 0x10).2.registers.F k.halfCarryFlag ∧
      (0x10 : Nat) &&& 0x0F = 0x00) := by
  refine ⟨aluDec_halfCarry_iff k hk, ⟨?_, by decide⟩, ⟨?_, by decide⟩⟩
  · exact (aluDec_halfCarry_iff k hk _ _).mpr (Or.inl (by decide))
  · rw [aluDec_halfCarry_iff k hk]
    have h : flagSet (cpuWith 0 k.halfCarryFlag).registers.F k.halfCarryFlag :=
      Nat.and_self _
    rintro (h1 | h1)
    · exact h1 (by decide)
    · exact h1 h

theorem aluDec_halfCarry_defect_witness :
    gbMasks.WellFormed ∧
      (flagSet (aluDec gbMasks (cpuWith 0 0x00) 0x01).2.registers.F 0x20 ∧
        (0x01 : Nat) &&& 0x0F ≠ 0x00) ∧
      (¬ flagSet (aluDec gbMasks (cpuWith 0 0x20) 0x10).2.registers.F 0x20 ∧
        (0x10 : Nat) &&& 0x0F = 0x00) :=
  ⟨gbMasks_wellFormed, (aluDec_halfCarry_defect gbMasks gbMasks_wellFormed).2⟩

/-- C3 (defect in the code). Neither `aluInc` nor `aluDec` leaves the zero flag
set exactly when the returned result is 0: on a non-zero result the flag is
toggled instead of cleared.  For every admissible flag layout, the zero flag is
set afterwards iff the result is 0 or the flag was clear before the call; with
`F = 0x00`, `aluInc(0x00)` returns 1 and `aluDec(0x02)` returns 1, and both
leave the zero flag set. -/
theorem aluInc_aluDec_zero_defect (k : flagMasks) (hk : k.WellFormed) :
    (∀ (s : cpu) (v : Nat),
        flagSet (aluInc k s v).2.registers.F k.zeroFlag ↔
          ((aluInc k s v).1 = 0 ∨ ¬ flagSet s.registers.F k.zeroFlag)) ∧
    (∀ (s : cpu) (v : Nat),
        flagSet (aluDec k s v).2.registers.F k.zeroFlag ↔
          ((aluDec k s v).1 = 0 ∨ ¬ flagSet s.registers.F k.zeroFlag)) ∧
    ((aluInc k (cpuWith 0 0x00) 0x00).1 = 1 ∧
      flagSet (aluInc k (cpuWith 0 0x00) 0x00).2.registers.F k.zeroFlag) ∧
    ((aluDec k (cpuWith 0 0x00) 0x02).1 = 1 ∧
      flagSet (aluDec k (cpuWith 0 0x00) 0x02).2.registers.F k.zeroFlag) := by
  obtain ⟨z, -, hz⟩ := hk.1
  have hclear : ¬ flagSet (cpuWith 0 0x00).registers.F k.zeroFlag := by
    rw [hz, flagSet_two_pow]
    simp [cpuWith]
  refine ⟨aluInc_zero_iff k hk, aluDec_zero_iff k hk, ⟨rfl, ?_⟩, ⟨rfl, ?_⟩⟩
  · exact (aluInc_zero_iff k hk _ _).mpr (Or.inr hclear)
  · exact (aluDec_zero_iff k hk _ _).mpr (Or.inr hclear)

theorem aluInc_aluDec_zero_defect_witness :
    gbMasks.WellFormed ∧
      ((aluInc gbMasks (cpuWith 0 0x00) 0x00).1 = 1 ∧
        flagSet (aluInc gbMasks (cpuWith 0 0x00) 0x00).2.registers.F 0x80) ∧
      ((aluDec gbMasks (cpuWith 0 0x00) 0x02).1 = 1 ∧
        flagSet (aluDec gbMasks (cpuWith 0 0x00) 0x02).2.registers.F 0x80) :=
  ⟨gbMasks_wellFormed, (aluInc_aluDec_zero_defect gbMasks gbMasks_wellFormed).2.2⟩

/-- C4 (defect in the code). `aluInc` does not leave the negative flag clear:
it toggles it.  For every admissible flag layout, the negative flag is set
after `aluInc(v)` iff it was clear before the call; at `v = 0x00`, `F = 0x00`
(negative flag already clear) it ends up set. -/
theorem aluInc_negative_defect (k : flagMasks) (hk : k.WellFormed) :
    (∀ (s : cpu) (v : Nat),
        flagSet (aluInc k s v).2.registers.F k.negativeFlag ↔
          ¬ flagSet s.registers.F k.negativeFlag) ∧
    flagSet (aluInc k (cpuWith 0 0x00) 0x00).2.registers.F k.negativeFlag :=
  ⟨aluInc_negative_iff k hk,
    (aluInc_negative_iff k hk _ _).mpr (not_flagSet_zero hk.2.1)⟩

theorem aluInc_negative_defect_witness :
    gbMasks.WellFormed ∧
      flagSet (aluInc gbMasks (cpuWith 0 0x00) 0x00).2.registers.F 0x40 :=
  ⟨gbMasks_wellFormed, (aluInc_negative_defect gbMasks gbMasks_wellFormed).2⟩

/-- C5 (defect in the code). After `aluRotateLeftCarry(v)` the carry flag is not
always bit 7 of `v`: when bit 7 is 0 the flag is toggled instead of cleared.
For every admissible flag layout, the carry flag is set afterwards iff bit 7 of
`v` is 1 or the flag was clear before the call; at `v = 0x00`, `F = 0x00` bit 7
is 0 and the carry flag ends up set. -/
theorem aluRotateLeftCarry_carry_defect (k : flagMasks) (hk : k.WellFormed) :
    (∀ (s : cpu) (v : Nat),
        flagSet (aluRotateLeftCarry k s v).2.registers.F k.carryFlag ↔
          (v.testBit 7 = true ∨ ¬ flagSet s.registers.F k.carryFlag)) ∧
    (Nat.testBit 0x00 7 = false ∧
      flagSet (aluRotateLeftCarry k (cpuWith 0 0x00) 0x00).2.registers.F k.carryFlag) :=
  ⟨aluRotateLeftCarry_carry_iff k hk, by decide,
    (aluRotateLeftCarry_carry_iff k hk _ _).mpr (Or.inr (not_flagSet_zero hk.2.2.2.1))⟩

theorem aluRotateLeftCarry_carry_defect_witness :
    gbMasks.WellFormed ∧ Nat.testBit 0x00 7 = false ∧
      flagSet (aluRotateLeftCarry gbMasks (cpuWith 0 0x00) 0x00).2.registers.F 0x10 :=
  ⟨gbMasks_wellFormed, (aluRotateLeftCarry_carry_defect gbMasks gbMasks_wellFormed).2⟩

/-- C6 (defect in the code). `aluRotateLeftCarry` does not clear the zero,
negative and half-carry flags: it toggles all three.  For every admissible flag
layout, each of the three flags is set afterwards iff it was clear before the
call; at `v = 0x00`, `F = 0x00` all three end up set. -/
theorem aluRotateLeftCarry_clear_defect (k : flagMasks) (hk : k.WellFormed) :
    (∀ (s : cpu) (v : Nat),
        (flagSet (aluRotateLeftCarry k s v).2.registers.F k.zeroFlag ↔
            ¬ flagSet s.registers.F k.zeroFlag) ∧
        (flagSet (aluRotateLeftCarry k s v).2.registers.F k.negativeFlag ↔
            ¬ flagSet s.registers.F k.negativeFlag) ∧
        (flagSet (aluRotateLeftCarry k s v).2.registers.F k.halfCarryFlag ↔
            ¬ flagSet s.registers.F k.halfCarryFlag)) ∧
    (flagSet (aluRotateLeftCarry k (cpuWith 0 0x00) 0x00).2.registers.F k.zeroFlag ∧
      flagSet (aluRotateLeftCarry k (cpuWith 0 0x00) 0x00).2.registers.F k.negativeFlag ∧
      flagSet (aluRotateLeftCarry k (cpuWith 0 0x00) 0x00).2.registers.F
        k.halfCarryFlag) := by
  have h := aluRotateLeftCarry_others_iff k hk (cpuWith 0 0x00) 0x00
  exact ⟨aluRotateLeftCarry_others_iff k hk,
    h.1.mpr (not_flagSet_zero hk.1),
    h.2.1.mpr (not_flagSet_zero hk.2.1),
    h.2.2.mpr (not_flagSet_zero hk.2.2.1)⟩

theorem aluRotateLeftCarry_clear_defect_witness :
    gbMasks.WellFormed ∧
      flagSet (aluRotateLeftCarry gbMasks (cpuWith 0 0x00) 0x00).2.registers.F 0x80 ∧
      flagSet (aluRotateLeftCarry gbMasks (cpuWith 0 0x00) 0x00).2.registers.F 0x40 ∧
      flagSet (aluRotateLeftCarry gbMasks (cpuWith 0 0x00) 0x00).2.registers.F 0x20 :=
  ⟨gbMasks_wellFormed, (aluRotateLeftCarry_clear_defect gbMasks gbMasks_wellFormed).2⟩

/-- C7. For every operand `v` and every prior state, `aluRotateLeftCarry(v)`
returns `((v << 1) | c) mod 256`, where `c` is 1 if the carry flag was set in
`F` before the call and 0 otherwise; and `rlca` on a state with `A = 0xFF` and
the carry flag clear leaves `A = 0xFE`. -/
theorem aluRotateLeftCarry_result (k : flagMasks) (s : cpu) (v parameter : Nat) :
    (aluRotateLeftCarry k s v).1 =
        ((v <<< 1) ||| (if flagSet s.registers.F k.carryFlag then 1 else 0)) % 256 ∧
    (s.registers.A = 0xFF → ¬ flagSet s.registers.F k.carryFlag →
        (rlca k s parameter).registers.A = 0xFE) := by
  constructor
  · simp only [aluRotateLeftCarry]
    split_ifs
    · exact shl_succ_mod v
    · simp
  · intro hA hC
    simp only [rlca, aluRotateLeftCarry, cpu.setA, hA]
    rw [if_neg hC]
    decide

theorem aluRotateLeftCarry_result_witness :
    (cpuWith 0xFF 0x00).registers.A = 0xFF ∧
      ¬ flagSet (cpuWith 0xFF 0x00).registers.F gbMasks.carryFlag ∧
      (rlca gbMasks (cpuWith 0xFF 0x00) 0).registers.A = 0xFE :=
  ⟨rfl, by decide,
    (aluRotateLeftCarry_result gbMasks (cpuWith 0xFF 0x00) 0xFF 0).2 rfl (by decide)⟩

/-- C8 (defect in the code). After `addWord(a, b)` the carry flag is not set
exactly when `a + b > 0xFFFF`: the flag is only ever set, never cleared.  For
every admissible flag layout, the carry flag is set afterwards iff
`a + b > 0xFFFF` or it was set before the call; with `a = 0x0FFF`, `b = 0x0001`
and only the carry flag set in `F`, the sum does not exceed `0xFFFF` and the
carry flag is still set afterwards. -/
theorem addWord_carry_defect (k : flagMasks) (hk : k.WellFormed) :
    (∀ (s : cpu) (a b : Nat),
        flagSet (addWord k s a b).2.registers.F k.carryFlag ↔
          (a + b > 0xFFFF ∨ flagSet s.registers.F k.carryFlag)) ∧
    (¬ (0x0FFF + 0x0001 > 0xFFFF) ∧
      flagSet (addWord k (cpuWith 0 k.carryFlag) 0x0FFF 0x0001).2.registers.F
        k.carryFlag) :=
  ⟨addWord_carry_iff k hk, by decide,
    (addWord_carry_iff k hk _ _ _).mpr (Or.inr (Nat.and_self _))⟩

theorem addWord_carry_defect_witness :
    gbMasks.WellFormed ∧ ¬ (0x0FFF + 0x0001 > 0xFFFF) ∧
      flagSet (addWord gbMasks (cpuWith 0 0x10) 0x0FFF 0x0001).2.registers.F 0x10 :=
  ⟨gbMasks_wellFormed, (addWord_carry_defect gbMasks gbMasks_wellFormed).2⟩

/-- C9 (defect in the code). After `addWord(a, b)` the half-carry flag is not
set exactly when `(a & 0x0FFF) + (b & 0x0FFF) > 0x0FFF`: the flag is only ever
set, never cleared.  For every admissible flag layout, the half-carry flag is
set afterwards iff the 12-bit sum exceeds `0x0FFF` or the flag was set before
the call; with `a = 0`, `b = 0` and only the half-carry flag set in `F`, there
is no carry out of bit 11 and the flag is still set afterwards. -/
theorem addWord_halfCarry_defect (k : flagMasks) (hk : k.WellFormed) :
    (∀ (s : cpu) (a b : Nat),
        flagSet (addWord k s a b).2.registers.F k.halfCarryFlag ↔
          ((a &&& 0x0FFF) + (b &&& 0x0FFF) > 0x0FFF ∨
            flagSet s.registers.F k.halfCarryFlag)) ∧
    (¬ (((0x0000 : Nat) &&& 0x0FFF) + ((0x0000 : Nat) &&& 0x0FFF) > 0x0FFF) ∧
      flagSet (addWord k (cpuWith 0 k.halfCarryFlag) 0x0000 0x0000).2.registers.F
        k.halfCarryFlag) :=
  ⟨addWord_halfCarry_iff k hk, by decide,
    (addWord_halfCarry_iff k hk _ _ _).mpr (Or.inr (Nat.and_self _))⟩

theorem addWord_halfCarry_defect_witness :
    gbMasks.WellFormed ∧
      ¬ (((0x0000 : Nat) &&& 0x0FFF) + ((0x0000 : Nat) &&& 0x0FFF) > 0x0FFF) ∧
      flagSet (addWord gbMasks (cpuWith 0 0x20) 0x0000 0x0000).2.registers.F 0x20 :=
  ⟨gbMasks_wellFormed, (addWord_halfCarry_defect gbMasks gbMasks_wellFormed).2⟩

/-- C10 (defect in the code). `addWord` does not leave the negative flag clear:
it toggles it.  For every admissible flag layout, the negative flag is set
after `addWord(a, b)` iff it was clear before the call; with `a = 0x0FFF`,
`b = 0x0001` and `F = 0x00` (negative flag already clear) it ends up set. -/
theorem addWord_negative_defect (k : flagMasks) (hk : k.WellFormed) :
    (∀ (s : cpu) (a b : Nat),
        flagSet (addWord k s a b).2.registers.F k.negativeFlag ↔
          ¬ flagSet s.registers.F k.negativeFlag) ∧
    flagSet (addWord k (cpuWith 0 0x00) 0x0FFF 0x0001).2.registers.F k.negativeFlag :=
  ⟨addWord_negative_iff k hk,
    (addWord_negative_iff k hk _ _ _).mpr (not_flagSet_zero hk.2.1)⟩

theorem addWord_negative_defect_witness :
    gbMasks.WellFormed ∧
      flagSet (addWord gbMasks (cpuWith 0 0x00) 0x0FFF 0x0001).2.registers.F 0x40 :=
  ⟨gbMasks_wellFormed, (addWord_negative_defect gbMasks gbMasks_wellFormed).2⟩

/-- C11. For every opcode that has a descriptor, whatever the registers and the
memory hold, one call of `next` returns `nil` and leaves the program counter at
the old value plus the descriptor's declared length, modulo 2^16; that length is
3 for `LD BC nn` (0x01) and `LD (nn) SP` (0x08), 2 for `LD B n` (0x06) and
`LD C n` (0x0E), and 1 for every other opcode of the table. -/
theorem next_advances_pc_by_length (k : flagMasks) (s : cpu) (i : instruction)
    (h : instructionSetDeclaration k (mmu.readByte s.mmu s.registers.pc) = some i) :
    (∃ s1, cpu.next k s = outcome.returned none s1 ∧
        s1.registers.pc = (s.registers.pc + i.length) % 65536) ∧
      i.length =
        (if mmu.readByte s.mmu s.registers.pc = 0x01 ∨
              mmu.readByte s.mmu s.registers.pc = 0x08 then 3
          else if mmu.readByte s.mmu s.registers.pc = 0x06 ∨
              mmu.readByte s.mmu s.registers.pc = 0x0E then 2
          else 1) := by
  obtain ⟨hframe, hlen⟩ := instructionSetDeclaration_frame k _ i h
  refine ⟨⟨_, next_of_some k s i h, ?_⟩, hlen⟩
  have hpos : 1 ≤ i.length := by
    rw [hlen]
    split_ifs <;> decide
  simp only [instruction.execute, (hframe _ _).1, cpu.setPc]
  omega

theorem next_advances_pc_by_length_witness :
    (instructionSetDeclaration gbMasks
        (mmu.readByte (cpuAt 0xFFFF 0 5 0x08).mmu
          (cpuAt 0xFFFF 0 5 0x08).registers.pc)).map (fun i => i.length) = some 3 ∧
      ∃ s1, cpu.next gbMasks (cpuAt 0xFFFF 0 5 0x08) = outcome.returned none s1 ∧
        s1.registers.pc = (0xFFFF + 3) % 65536 :=
  ⟨rfl, (next_advances_pc_by_length gbMasks (cpuAt 0xFFFF 0 5 0x08)
    { name := "LD (nn) SP", ticks := 20, length := 3, handler := ldNnpSp } rfl).1⟩

/-- C12. For every opcode that has a descriptor, whatever the registers and the
memory (hence the operand) hold, one call of `next` returns `nil` and leaves
the 64-bit tick counter at the old value plus the descriptor's declared ticks,
modulo 2^64; whenever that sum fits in 64 bits the counter has grown by exactly
the declared ticks. -/
theorem next_adds_declared_ticks (k : flagMasks) (s : cpu) (i : instruction)
    (h : instructionSetDeclaration k (mmu.readByte s.mmu s.registers.pc) = some i) :
    ∃ s1, cpu.next k s = outcome.returned none s1 ∧
      s1.ticks = (s.ticks + i.ticks) % 2 ^ 64 ∧
      (s.ticks + i.ticks < 2 ^ 64 → s1.ticks = s.ticks + i.ticks) := by
  obtain ⟨hframe, -⟩ := instructionSetDeclaration_frame k _ i h
  have ht : (i.execute (s.setPc ((s.registers.pc + 1) % 65536))).ticks =
      (s.ticks + i.ticks) % 2 ^ 64 := by
    simp only [instruction.execute, (hframe _ _).2, cpu.setPc]
  exact ⟨_, next_of_some k s i h, ht, fun hlt => by rw [ht, Nat.mod_eq_of_lt hlt]⟩

theorem next_adds_declared_ticks_witness :
    (instructionSetDeclaration gbMasks
        (mmu.readByte (cpuAt 0xFFFF 0 5 0x08).mmu
          (cpuAt 0xFFFF 0 5 0x08).registers.pc)).map (fun i => i.ticks) = some 20 ∧
      ∃ s1, cpu.next gbMasks (cpuAt 0xFFFF 0 5 0x08) = outcome.returned none s1 ∧
        s1.ticks = (5 + 20) % 2 ^ 64 ∧ (5 + 20 < 2 ^ 64 → s1.ticks = 5 + 20) :=
  ⟨rfl, next_adds_declared_ticks gbMasks (cpuAt 0xFFFF 0 5 0x08)
    { name := "LD (nn) SP", ticks := 20, length := 3, handler := ldNnpSp } rfl⟩

/-- C13 (defect in the code). On an opcode without a descriptor `next` neither
reports an error nor leaves the registers alone.  `next` never returns an error
at all, whatever the state; and when the byte at the program counter is above
`0x0F` the call ends with the program counter already moved to the old value
plus one (modulo 2^16), which differs from the old value. -/
theorem next_unmapped_defect (k : flagMasks) (s : cpu)
    (hop : 0x0F < mmu.readByte s.mmu s.registers.pc) :
    (∀ (t : cpu) (e : String) (t1 : cpu), cpu.next k t ≠ outcome.returned (some e) t1) ∧
      (cpu.next k s).error = none ∧
      (cpu.next k s).state.registers.pc = (s.registers.pc + 1) % 65536 ∧
      (cpu.next k s).state.registers.pc ≠ s.registers.pc := by
  have hnone := instructionSetDeclaration_eq_none k _ hop
  have hnext := next_of_none k s hnone
  refine ⟨?_, ?_, ?_, ?_⟩
  · intro t e t1 ht
    simp only [cpu.next] at ht
    split at ht <;> simp at ht
  · rw [hnext]
    rfl
  · rw [hnext]
    rfl
  · rw [hnext]
    simp only [outcome.state, cpu.setPc]
    omega

theorem next_unmapped_defect_witness :
    0x0F < mmu.readByte (cpuAt 0x0100 0 0 0x10).mmu (cpuAt 0x0100 0 0 0x10).registers.pc ∧
      (cpu.next gbMasks (cpuAt 0x0100 0 0 0x10)).error = none ∧
      (cpu.next gbMasks (cpuAt 0x0100 0 0 0x10)).state.registers.pc = 0x0101 :=
  ⟨by decide,
    (next_unmapped_defect gbMasks (cpuAt 0x0100 0 0 0x10) (by decide)).2.1,
    (next_unmapped_defect gbMasks (cpuAt 0x0100 0 0 0x10) (by decide)).2.2.1⟩

/-- C14 (defect in the code). The flag mutation of the ALU rules is not
idempotent.  For every admissible flag layout: a second `aluInc(v)` on the state
left by the first always leaves a different `F` (the negative flag flips
again); a second `addWord(a, b)` always leaves a different `F` (same reason);
and a second `aluDec(v)` leaves a different `F` whenever the result is not 0
(the zero flag flips again). -/
theorem aluRules_not_idempotent (k : flagMasks) (hk : k.WellFormed) :
    (∀ (s : cpu) (v : Nat),
        (aluInc k (aluInc k s v).2 v).2.registers.F ≠ (aluInc k s v).2.registers.F) ∧
    (∀ (s : cpu) (v : Nat), (aluDec k s v).1 ≠ 0 →
        (aluDec k (aluDec k s v).2 v).2.registers.F ≠ (aluDec k s v).2.registers.F) ∧
    (∀ (s : cpu) (a b : Nat),
        (addWord k (addWord k s a b).2 a b).2.registers.F ≠
          (addWord k s a b).2.registers.F) := by
  refine ⟨fun s v heq => ?_, fun s v hres heq => ?_, fun s a b heq => ?_⟩
  · have h := aluInc_negative_iff k hk (aluInc k s v).2 v
    rw [heq] at h
    exact (iff_not_self h).elim
  · have h := aluDec_zero_iff k hk (aluDec k s v).2 v
    rw [heq] at h
    have hres1 : (aluDec k (aluDec k s v).2 v).1 ≠ 0 := hres
    have h1 : flagSet (aluDec k s v).2.registers.F k.zeroFlag ↔
        ¬ flagSet (aluDec k s v).2.registers.F k.zeroFlag :=
      h.trans ⟨fun o => o.resolve_left hres1, Or.inr⟩
    exact (iff_not_self h1).elim
  · have h := addWord_negative_iff k hk (addWord k s a b).2 a b
    rw [heq] at h
    exact (iff_not_self h).elim

theorem aluRules_not_idempotent_witness :
    gbMasks.WellFormed ∧
      ((aluInc gbMasks (cpuWith 0 0x00) 0x00).2.registers.F = 0xE0 ∧
        (aluInc gbMasks (aluInc gbMasks (cpuWith 0 0x00) 0x00).2 0x00).2.registers.F ≠
          (aluInc gbMasks (cpuWith 0 0x00) 0x00).2.registers.F) ∧
      ((aluDec gbMasks (cpuWith 0 0x00) 0x02).1 ≠ 0 ∧
        (aluDec gbMasks (aluDec gbMasks (cpuWith 0 0x00) 0x02).2 0x02).2.registers.F ≠
          (aluDec gbMasks (cpuWith 0 0x00) 0x02).2.registers.F) ∧
      (addWord gbMasks (addWord gbMasks (cpuWith 0 0x00) 0 0).2 0 0).2.registers.F ≠
        (addWord gbMasks (cpuWith 0 0x00) 0 0).2.registers.F :=
  ⟨gbMasks_wellFormed,
    ⟨rfl, (aluRules_not_idempotent gbMasks gbMasks_wellFormed).1 _ _⟩,
    ⟨by decide, (aluRules_not_idempotent gbMasks gbMasks_wellFormed).2.1 _ _ (by decide)⟩,
    (aluRules_not_idempotent gbMasks gbMasks_wellFormed).2.2 _ _ _⟩

/-! ## Flags that an ALU rule forces or leaves alone -/

theorem or_and_self_right (x m : Nat) : (x ||| m) &&& m = m := by
  apply Nat.eq_of_testBit_eq
  intro i
  rw [Nat.testBit_and, Nat.testBit_or]
  cases x.testBit i <;> cases m.testBit i <;> rfl

/-- Two bytes agree on a single-bit mask as soon as they agree on that bit. -/
theorem and_two_pow_congr {F G i : Nat} (h : F.testBit i = G.testBit i) :
    F &&& 2 ^ i = G &&& 2 ^ i := by
  rw [Nat.and_two_pow, Nat.and_two_pow, h]

theorem aluInc_carry_kept (k : flagMasks) (hk : k.WellFormed) (s : cpu) (v : Nat) :
    (aluInc k s v).2.registers.F &&& k.carryFlag = s.registers.F &&& k.carryFlag := by
  obtain ⟨z, n, h, c, hz, hn, hh, hc, d1, d2, d3, d4, d5, d6⟩ := hk.bits
  rw [hc]
  apply and_two_pow_congr
  simp only [aluInc, cpu.setF, hz, hn, hh]
  split_ifs <;>
    simp [Nat.testBit_xor, Nat.testBit_or, Nat.testBit_two_pow, d1, d2, d3, d4, d5, d6,
      d1.symm, d2.symm, d3.symm, d4.symm, d5.symm, d6.symm, *]

theorem aluDec_carry_kept (k : flagMasks) (hk : k.WellFormed) (s : cpu) (v : Nat) :
    (aluDec k s v).2.registers.F &&& k.carryFlag = s.registers.F &&& k.carryFlag := by
  obtain ⟨z, n, h, c, hz, hn, hh, hc, d1, d2, d3, d4, d5, d6⟩ := hk.bits
  rw [hc]
  apply and_two_pow_congr
  simp only [aluDec, cpu.setF, hz, hn, hh]
  split_ifs <;>
    simp [Nat.testBit_xor, Nat.testBit_or, Nat.testBit_two_pow, d1, d2, d3, d4, d5, d6,
      d1.symm, d2.symm, d3.symm, d4.symm, d5.symm, d6.symm, *]

theorem addWord_zero_kept (k : flagMasks) (hk : k.WellFormed) (s : cpu) (a b : Nat) :
    (addWord k s a b).2.registers.F &&& k.zeroFlag = s.registers.F &&& k.zeroFlag := by
  obtain ⟨z, n, h, c, hz, hn, hh, hc, d1, d2, d3, d4, d5, d6⟩ := hk.bits
  rw [hz]
  apply and_two_pow_congr
  simp only [addWord, cpu.setF, hz, hn, hh, hc]
  split_ifs <;>
    simp [Nat.testBit_xor, Nat.testBit_or, Nat.testBit_two_pow, d1, d2, d3, d4, d5, d6,
      d1.symm, d2.symm, d3.symm, d4.symm, d5.symm, d6.symm, *]

/-- C15. For every operand `v` and every prior state, the negative flag is set
after `aluDec(v)`; this holds for any value of the negative-flag mask. -/
theorem aluDec_negative_set (k : flagMasks) (s : cpu) (v : Nat) :
    flagSet (aluDec k s v).2.registers.F k.negativeFlag := by
  simp only [aluDec, cpu.setF]
  exact or_and_self_right _ _

/-- C16. For every admissible flag layout, every operand `v` and every prior
state, the carry bit of `F` after `aluInc(v)` equals the carry bit of `F`
before the call, and the same holds for `aluDec(v)`. -/
theorem aluInc_aluDec_carry_unchanged (k : flagMasks) (hk : k.WellFormed) (s : cpu)
    (v : Nat) :
    (aluInc k s v).2.registers.F &&& k.carryFlag = s.registers.F &&& k.carryFlag ∧
      (aluDec k s v).2.registers.F &&& k.carryFlag = s.registers.F &&& k.carryFlag :=
  ⟨aluInc_carry_kept k hk s v, aluDec_carry_kept k hk s v⟩

theorem aluInc_aluDec_carry_unchanged_witness :
    gbMasks.WellFormed ∧
      (aluInc gbMasks (cpuWith 0 0x10) 0xFF).2.registers.F &&& 0x10 = 0x10 &&& 0x10 ∧
      (aluDec gbMasks (cpuWith 0 0x10) 0xFF).2.registers.F &&& 0x10 = 0x10 &&& 0x10 :=
  ⟨gbMasks_wellFormed,
    aluInc_aluDec_carry_unchanged gbMasks gbMasks_wellFormed (cpuWith 0 0x10) 0xFF⟩

/-- C17. For every admissible flag layout, all operands `a`, `b` and every
prior state, the zero bit of `F` after `addWord(a, b)` equals the zero bit of
`F` before the call, whatever the returned result is (0 included). -/
theorem addWord_zero_unchanged (k : flagMasks) (hk : k.WellFormed) (s : cpu)
    (a b : Nat) :
    (addWord k s a b).2.registers.F &&& k.zeroFlag = s.registers.F &&& k.zeroFlag :=
  addWord_zero_kept k hk s a b

theorem addWord_zero_unchanged_witness :
    gbMasks.WellFormed ∧ (addWord gbMasks (cpuWith 0 0x00) 0xFFFF 0x0001).1 = 0 ∧
      (addWord gbMasks (cpuWith 0 0x00) 0xFFFF 0x0001).2.registers.F &&& 0x80 =
        0x00 &&& 0x80 :=
  ⟨gbMasks_wellFormed, rfl,
    addWord_zero_unchanged gbMasks gbMasks_wellFormed (cpuWith 0 0x00) 0xFFFF 0x0001⟩

/-- C18. The values returned by the arithmetic ALU rules are the modular
results, whatever the flags register and the rest of the state hold:
`aluInc(v)` returns `(v + 1) mod 256`, `aluDec(v)` returns `(v - 1) mod 256`
and `addWord(a, b)` returns `(a + b) mod 65536`; and `ADD HL,BC` on a state with
`HL = 0x0FFF` and `BC = 0x0001` leaves `HL = 0x1000`. -/
theorem alu_results_modular (k : flagMasks) (s : cpu) (v a b parameter : Nat) :
    (aluInc k s v).1 = (v + 1) % 256 ∧
      (((aluDec k s v).1 : Nat) : Int) = ((v : Int) - 1) % 256 ∧
      (addWord k s a b).1 = (a + b) % 65536 ∧
      (s.registers.readHL = 0x0FFF → s.registers.readBC = 0x0001 →
        (addHlBc k s parameter).registers.readHL = 0x1000) := by
  refine ⟨rfl, ?_, rfl, fun hHL hBC => ?_⟩
  · simp only [aluDec]
    omega
  · have hsum : (addWord k s s.registers.readHL s.registers.readBC).1 = 0x1000 := by
      show (s.registers.readHL + s.registers.readBC) % 65536 = 0x1000
      rw [hHL, hBC]
    have hregs : (addHlBc k s parameter).registers =
        (addWord k s s.registers.readHL s.registers.readBC).2.registers.writeHL
          (addWord k s s.registers.readHL s.registers.readBC).1 := rfl
    rw [hregs, hsum]
    simp [registers.writeHL, registers.readHL]

theorem alu_results_modular_witness :
    (cpuPairs 0x0F 0xFF 0x00 0x01 0x00).registers.readHL = 0x0FFF ∧
      (cpuPairs 0x0F 0xFF 0x00 0x01 0x00).registers.readBC = 0x0001 ∧
      (aluInc gbMasks (cpuPairs 0x0F 0xFF 0x00 0x01 0x00) 0xFF).1 = (0xFF + 1) % 256 ∧
      (addHlBc gbMasks (cpuPairs 0x0F 0xFF 0x00 0x01 0x00) 0).registers.readHL = 0x1000 :=
  ⟨by decide, by decide,
    (alu_results_modular gbMasks (cpuPairs 0x0F 0xFF 0x00 0x01 0x00) 0xFF 0 0 0).1,
    (alu_results_modular gbMasks (cpuPairs 0x0F 0xFF 0x00 0x01 0x00) 0xFF 0 0 0).2.2.2
      (by decide) (by decide)⟩

/-- C19. The instruction table has a descriptor for exactly the opcodes `0x00`
to `0x0F`, and the name, ticks and length of each descriptor are: NOP 4/1,
LD BC nn 12/3, LD (BC) A 8/1, INC BC 8/1, INC B 4/1, DEC B 4/1, LD B n 8/2,
RLCA 4/1, LD (nn) SP 20/3, ADD HL BC 8/1, LD A,(BC) 8/1, DEC BC 8/1, INC C 4/1,
DEC C 4/1, LD C n 8/2, RRCA 4/1. -/
theorem instructionSetDeclaration_entries (k : flagMasks) :
    (∀ op : Nat, (instructionSetDeclaration k op).isSome = true ↔ op ≤ 0x0F) ∧
      (List.range 16).map
          (fun op => (instructionSetDeclaration k op).map
            (fun i => (i.name, i.ticks, i.length))) =
        [some ("NOP", 4, 1), some ("LD BC nn", 12, 3), some ("LD (BC) A", 8, 1),
         some ("INC BC", 8, 1), some ("INC B", 4, 1), some ("DEC B", 4, 1),
         some ("LD B n", 8, 2), some ("RLCA", 4, 1), some ("LD (nn) SP", 20, 3),
         some ("ADD HL BC", 8, 1), some ("LD A, (BC)", 8, 1), some ("DEC BC", 8, 1),
         some ("INC C", 4, 1), some ("DEC C", 4, 1), some ("LD C n", 8, 2),
         some ("RRCA", 4, 1)] := by
  refine ⟨fun op => ⟨fun h => ?_, fun h => ?_⟩, rfl⟩
  · by_contra hgt
    rw [instructionSetDeclaration_eq_none k op (by omega)] at h
    exact Bool.noConfusion h
  · interval_cases op <;> rfl

/-- The flags register after `rrca`: the carry mask or-ed in when bit 0 of the
accumulator is 1, untouched otherwise. -/
theorem rrca_F (k : flagMasks) (s : cpu) (p : Nat) :
    (rrca k s p).registers.F =
      if s.registers.A &&& 0x01 = 0x01 then s.registers.F ||| k.carryFlag
      else s.registers.F := by
  simp only [rrca, cpu.setF, cpu.setA]
  split_ifs <;> rfl

/-- Apart from `A` and `F`, `rrca` returns the registers it was given. -/
theorem rrca_registers (k : flagMasks) (s : cpu) (p : Nat) :
    (rrca k s p).registers =
      { s.registers with A := s.registers.A >>> 1, F := (rrca k s p).registers.F } := by
  simp only [rrca, cpu.setF, cpu.setA]
  split_ifs <;> rfl

/-- Or-ing one single-bit mask into a byte leaves every other bit alone. -/
theorem or_two_pow_and_two_pow (F : Nat) {i j : Nat} (h : i ≠ j) :
    (F ||| 2 ^ i) &&& 2 ^ j = F &&& 2 ^ j := by
  apply and_two_pow_congr
  simp [Nat.testBit_or, Nat.testBit_two_pow, h]

/-- C20. The `rrca` handler, which the table binds to opcode `0x0F`, is a
logical right shift.  For every admissible flag layout and every state whose
accumulator is a byte: afterwards `A` is the old `A` shifted right by one bit,
with bit 7 equal to 0; the carry flag is set when bit 0 of the old `A` was 1,
the whole of `F` is left as it was otherwise, and a carry flag that was set
stays set; the zero, negative and half-carry bits of `F` and the registers
B, C, D, E, H, L, SP and PC are unchanged. -/
theorem rrca_is_logical_shift (k : flagMasks) (hk : k.WellFormed) (s : cpu)
    (parameter : Nat) (hA : s.registers.A < 256) :
    (instructionSetDeclaration k 0x0F).map (fun i => i.handler) = some (rrca k) ∧
    (rrca k s parameter).registers.A = s.registers.A >>> 1 ∧
    (rrca k s parameter).registers.A.testBit 7 = false ∧
    (s.registers.A &&& 0x01 = 0x01 →
      flagSet (rrca k s parameter).registers.F k.carryFlag) ∧
    (s.registers.A &&& 0x01 ≠ 0x01 →
      (rrca k s parameter).registers.F = s.registers.F) ∧
    (flagSet s.registers.F k.carryFlag →
      flagSet (rrca k s parameter).registers.F k.carryFlag) ∧
    ((rrca k s parameter).registers.F &&& k.zeroFlag = s.registers.F &&& k.zeroFlag ∧
      (rrca k s parameter).registers.F &&& k.negativeFlag =
        s.registers.F &&& k.negativeFlag ∧
      (rrca k s parameter).registers.F &&& k.halfCarryFlag =
        s.registers.F &&& k.halfCarryFlag) ∧
    ((rrca k s parameter).registers.B = s.registers.B ∧
      (rrca k s parameter).registers.C = s.registers.C ∧
      (rrca k s parameter).registers.D = s.registers.D ∧
      (rrca k s parameter).registers.E = s.registers.E ∧
      (rrca k s parameter).registers.H = s.registers.H ∧
      (rrca k s parameter).registers.L = s.registers.L ∧
      (rrca k s parameter).registers.sp = s.registers.sp ∧
      (rrca k s parameter).registers.pc = s.registers.pc) := by
  obtain ⟨z, n, h, c, hz, hn, hh, hc, d1, d2, d3, d4, d5, d6⟩ := hk.bits
  have hregs := rrca_registers k s parameter
  have hF := rrca_F k s parameter
  have hAeq : (rrca k s parameter).registers.A = s.registers.A >>> 1 := by
    rw [hregs]
  refine ⟨rfl, hAeq, ?_, ?_, ?_, ?_, ⟨?_, ?_, ?_⟩, ?_⟩
  · rw [hAeq]
    apply Nat.testBit_lt_two_pow
    rw [Nat.shiftRight_eq_div_pow]
    omega
  · intro hbit
    rw [hF, if_pos hbit]
    exact or_and_self_right _ _
  · intro hbit
    rw [hF, if_neg hbit]
  · intro hset
    rw [hF]
    split_ifs
    · exact or_and_self_right _ _
    · exact hset
  · rw [hF, hz, hc]
    split_ifs
    · exact or_two_pow_and_two_pow _ d3.symm
    · rfl
  · rw [hF, hn, hc]
    split_ifs
    · exact or_two_pow_and_two_pow _ d5.symm
    · rfl
  · rw [hF, hh, hc]
    split_ifs
    · exact or_two_pow_and_two_pow _ d6.symm
    · rfl
  · rw [hregs]
    exact ⟨rfl, rfl, rfl, rfl, rfl, rfl, rfl, rfl⟩

theorem rrca_is_logical_shift_witness :
    gbMasks.WellFormed ∧ (cpuWith 0x81 0x80).registers.A < 256 ∧
      (rrca gbMasks (cpuWith 0x81 0x80) 0).registers.A = 0x81 >>> 1 ∧
      (rrca gbMasks (cpuWith 0x81 0x80) 0).registers.A.testBit 7 = false ∧
      flagSet (rrca gbMasks (cpuWith 0x81 0x80) 0).registers.F 0x10 :=
  ⟨gbMasks_wellFormed, by decide,
    (rrca_is_logical_shift gbMasks gbMasks_wellFormed (cpuWith 0x81 0x80) 0
      (by decide)).2.1,
    (rrca_is_logical_shift gbMasks gbMasks_wellFormed (cpuWith 0x81 0x80) 0
      (by decide)).2.2.1,
    (rrca_is_logical_shift gbMasks gbMasks_wellFormed (cpuWith 0x81 0x80) 0
      (by decide)).2.2.2.1 (by decide)⟩

end GoBoy
